import Mathlib

/-!
Verification of the coverage-report aggregator in `scripts/analyze_coverage.py`.

The script reads a Go coverage profile line by line, strips each line,
skips blank lines and the literal header `mode: atomic`, and matches the
anchored regex `([^:]+):(\d+)\.(\d+),(\d+)\.(\d+)\s+(\d+)\s+(\d+)` with
Python `re.match` (anchored at the start of the line only).  On a match it
accumulates, per file, total/covered statement counts and uncovered /
low-execution line lists, then reports files sorted ascending by coverage
percentage, filtered to `0 < pct < 95`, with line sets rendered as
compressed ranges truncated to 20 resp. 10 tokens.

The regex above is deterministic (maximal munch): `[^:]+` can never
consume a colon, so shortening its greedy match would place a non-colon
character where `:` is required; likewise each `\d+` is followed by a
non-digit requirement and each `\s+` by a non-space requirement, so
backtracking can never produce an alternative match.  The parser below is
therefore embedded as a left-to-right maximal-munch prefix parser.
`\d` and `\s` are modelled over ASCII (the profile format is ASCII).
-/

namespace AnalyzeCoverage

/-- ASCII model of the regex class `\d`. -/
def isDigitChar (c : Char) : Bool := '0' ≤ c && c ≤ '9'

/-- ASCII model of the regex class `\s` (and of `str.strip`). -/
def isSpaceChar (c : Char) : Bool :=
  c = ' ' || c = '\t' || c = '\n' || c = '\x0d' || c = '\x0b' || c = '\x0c'

/-- Base-10 value of a digit string, as computed by Python `int`. -/
def digitsToNat (ds : List Char) : Nat :=
  ds.foldl (fun a c => a * 10 + (c.toNat - '0'.toNat)) 0

/-- Maximal-munch split: the longest prefix satisfying `p`, and the rest. -/
def spanP (p : Char → Bool) (cs : List Char) : List Char × List Char :=
  (cs.takeWhile p, cs.dropWhile p)

/-- Regex fragment `(\d+)` : a nonempty maximal digit run, returned as its
numeric value together with the unconsumed remainder. -/
def parseNat1 (cs : List Char) : Option (Nat × List Char) :=
  if (spanP isDigitChar cs).1 = [] then none
  else some (digitsToNat (spanP isDigitChar cs).1, (spanP isDigitChar cs).2)

/-- Regex fragment `\s+` : a nonempty maximal whitespace run. -/
def skipSpaces1 (cs : List Char) : Option (List Char) :=
  if (spanP isSpaceChar cs).1 = [] then none
  else some (spanP isSpaceChar cs).2

/-- A single required literal character. -/
def expectChar (c : Char) : List Char → Option (List Char)
  | [] => none
  | x :: xs => if x = c then some xs else none

/-- Regex fragment `([^:]+):` : a nonempty maximal colon-free run followed
by a colon; returns the run and the remainder after the colon. -/
def spanFile (cs : List Char) : Option (List Char × List Char) :=
  if (spanP (fun c => !(c = ':')) cs).1 = [] then none
  else (expectChar ':' (spanP (fun c => !(c = ':')) cs).2).map
    (fun r => ((spanP (fun c => !(c = ':')) cs).1, r))

/-- One parsed profile line (the seven regex groups of
`([^:]+):(\d+)\.(\d+),(\d+)\.(\d+)\s+(\d+)\s+(\d+)`). -/
structure CoverageRecord where
  file : List Char
  startLine : Nat
  startCol : Nat
  endLine : Nat
  endCol : Nat
  statements : Nat
  count : Nat
deriving DecidableEq, Repr

/-- The whole record regex, as a prefix parser also returning the
unconsumed suffix of the line (Python `re.match` is anchored only at the
start, so trailing characters are simply left unconsumed). -/
def matchRecordAux (cs : List Char) : Option (CoverageRecord × List Char) :=
  (spanFile cs).bind fun p1 =>
  (parseNat1 p1.2).bind fun q1 =>
  (expectChar '.' q1.2).bind fun r2 =>
  (parseNat1 r2).bind fun q2 =>
  (expectChar ',' q2.2).bind fun r3 =>
  (parseNat1 r3).bind fun q3 =>
  (expectChar '.' q3.2).bind fun r4 =>
  (parseNat1 r4).bind fun q4 =>
  (skipSpaces1 q4.2).bind fun r5 =>
  (parseNat1 r5).bind fun q5 =>
  (skipSpaces1 q5.2).bind fun r6 =>
  (parseNat1 r6).bind fun q6 =>
  some (⟨p1.1, q1.1, q2.1, q3.1, q4.1, q5.1, q6.1⟩, q6.2)

/-- `re.match` of the record regex against a (stripped) line. -/
def matchRecord (cs : List Char) : Option CoverageRecord :=
  (matchRecordAux cs).map Prod.fst

/-- Python `str.strip()` (ASCII whitespace). -/
def pyStrip (cs : List Char) : List Char :=
  ((cs.dropWhile isSpaceChar).reverse.dropWhile isSpaceChar).reverse

/-- Per-file aggregate, mirroring the `defaultdict` value in
`parse_cover_out` (the line collections are Python lists with an explicit
membership guard before each append). -/
structure FileCoverageStats where
  total_statements : Nat
  covered_statements : Nat
  uncovered_lines : List Nat
  low_coverage_lines : List Nat
deriving DecidableEq, Repr

/-- The `defaultdict` default value. -/
def initStats : FileCoverageStats := ⟨0, 0, [], []⟩

/-- `if line_num not in lst: lst.append(line_num)`. -/
def addLineNum (ls : List Nat) (n : Nat) : List Nat :=
  if n ∈ ls then ls else ls ++ [n]

/-- Python `range(start_line, end_line + 1)`. -/
def lineRange (startLine endLine : Nat) : List Nat :=
  List.range' startLine (endLine + 1 - startLine)

/-- The guarded-append loop over `range(start_line, end_line + 1)`. -/
def addRange (ls : List Nat) (startLine endLine : Nat) : List Nat :=
  (lineRange startLine endLine).foldl addLineNum ls

/-- The accumulator body of `parse_cover_out` for one matched record. -/
def applyRecord (s : FileCoverageStats) (r : CoverageRecord) : FileCoverageStats where
  total_statements := s.total_statements + r.statements
  covered_statements :=
    if r.count > 0 then s.covered_statements + r.statements
    else s.covered_statements
  uncovered_lines :=
    if r.count > 0 then s.uncovered_lines
    else addRange s.uncovered_lines r.startLine r.endLine
  low_coverage_lines :=
    if r.count ≤ 1 ∧ r.count > 0 then
      addRange s.low_coverage_lines r.startLine r.endLine
    else s.low_coverage_lines

/-- The `file_stats` mapping: a Python dict preserves insertion order, so
it is modelled as an association list in encounter order. -/
abbrev CoverMap := List (List Char × FileCoverageStats)

def lookupStats (m : CoverMap) (f : List Char) : Option FileCoverageStats :=
  match m with
  | [] => none
  | (g, s) :: rest => if g = f then some s else lookupStats rest f

/-- `file_stats[file_path]` access (defaultdict insertion on first use)
followed by the in-place statistics update. -/
def updateStats (m : CoverMap) (f : List Char) (r : CoverageRecord) : CoverMap :=
  match m with
  | [] => [(f, applyRecord initStats r)]
  | (g, s) :: rest =>
      if g = f then (g, applyRecord s r) :: rest
      else (g, s) :: updateStats rest f r

def consumeRecord (m : CoverMap) (r : CoverageRecord) : CoverMap :=
  updateStats m r.file r

def consumeRecords (m : CoverMap) (rs : List CoverageRecord) : CoverMap :=
  rs.foldl consumeRecord m

/-- The body of the `for line in f` loop: strip, skip blank lines and the
`mode: atomic` header, skip non-matching lines, otherwise accumulate. -/
def processLine (m : CoverMap) (line : List Char) : CoverMap :=
  let l := pyStrip line
  if l = [] ∨ l = ("mode: atomic").data then m
  else
    match matchRecord l with
    | none => m
    | some r => consumeRecord m r

/-- `parse_cover_out`, as a fold over the input lines. -/
def parse_cover_out (lines : List (List Char)) : CoverMap :=
  lines.foldl processLine []

/-- `calculate_coverage`: percentages are modelled in ℚ. -/
def calculate_coverage (s : FileCoverageStats) : ℚ :=
  if s.total_statements = 0 then 100
  else ((s.covered_statements : ℚ) / (s.total_statements : ℚ)) * 100

/-- The `files_by_coverage` list of `(file_path, coverage, stats)`
triples, in dict encounter order before sorting. -/
def filesByCoverage (m : CoverMap) : List (List Char × ℚ × FileCoverageStats) :=
  m.map (fun p => (p.1, calculate_coverage p.2, p.2))

/-- Stable insertion: place the new element before the first existing
element whose percentage is not smaller.  Folding this over the list in
order yields the unique stable ascending sort, which is the semantics of
Python `list.sort(key=lambda x: x[1])`. -/
def insertByCoverage (x : List Char × ℚ × FileCoverageStats) :
    List (List Char × ℚ × FileCoverageStats) →
    List (List Char × ℚ × FileCoverageStats)
  | [] => [x]
  | y :: ys =>
      if y.2.1 < x.2.1 then y :: insertByCoverage x ys else x :: y :: ys

/-- `files_by_coverage.sort(key=lambda x: x[1])`. -/
def sortByCoverage (l : List (List Char × ℚ × FileCoverageStats)) :
    List (List Char × ℚ × FileCoverageStats) :=
  l.foldr insertByCoverage []

/-- `[(f, c, s) for f, c, s in files_by_coverage if c < 95.0 and c > 0]`
applied to the sorted list. -/
def low_coverage_files (m : CoverMap) :
    List (List Char × ℚ × FileCoverageStats) :=
  (sortByCoverage (filesByCoverage m)).filter
    (fun t => decide (t.2.1 < 95) && decide (t.2.1 > 0))

/-- The `total_stats` dict: statement totals summed over every file of
the (sorted) `files_by_coverage` list. -/
def totalStats (m : CoverMap) : FileCoverageStats where
  total_statements :=
    ((sortByCoverage (filesByCoverage m)).map
      (fun t => t.2.2.total_statements)).sum
  covered_statements :=
    ((sortByCoverage (filesByCoverage m)).map
      (fun t => t.2.2.covered_statements)).sum
  uncovered_lines := []
  low_coverage_lines := []

/-- `overall_coverage = calculate_coverage(total_stats)`. -/
def overall_coverage (m : CoverMap) : ℚ :=
  calculate_coverage (totalStats m)

/-- One compressed token: `str(start)` or `f"{start}-{end}"`. -/
def rangeToken (a b : Nat) : String :=
  if a = b then toString a else toString a ++ "-" ++ toString b

/-- The run-merging loop of `main` over the tail of the sorted line list,
carrying the current run `[start, e]`. -/
def compressLoop (start e : Nat) : List Nat → List String
  | [] => [rangeToken start e]
  | n :: ns =>
      if n = e + 1 then compressLoop start n ns
      else rangeToken start e :: compressLoop n n ns

/-- Consecutive-run compression of an (already sorted) line list.  The
script only runs this on a nonempty list; the empty case yields no
tokens. -/
def compressRanges : List Nat → List String
  | [] => []
  | x :: xs => compressLoop x x xs

/-- Ascending stable insertion for line numbers (`sorted(...)`). -/
def insertNat (n : Nat) : List Nat → List Nat
  | [] => [n]
  | m :: ms => if m < n then m :: insertNat n ms else n :: m :: ms

def sortNat (l : List Nat) : List Nat :=
  l.foldr insertNat []

/-- The displayed token list `ranges[:limit]` together with the
`len(ranges) > limit` flag that decides the trailing ellipsis. -/
def displayTokens (ls : List Nat) (limit : Nat) : List String × Bool :=
  let ranges := compressRanges (sortNat ls)
  (ranges.take limit, decide (ranges.length > limit))

/-- `', '.join(ranges[:limit]) + (' ...' if len(ranges) > limit else '')`. -/
def renderTokens (ls : List Nat) (limit : Nat) : String :=
  let ranges := compressRanges (sortNat ls)
  String.intercalate ", " (ranges.take limit) ++
    (if ranges.length > limit then " ..." else "")

/-- The uncovered-lines display of a report block (limit 20). -/
def uncoveredDisplay (s : FileCoverageStats) : List String × Bool :=
  displayTokens s.uncovered_lines 20

/-- The low-execution-lines display of a report block (limit 10). -/
def lowCoverageDisplay (s : FileCoverageStats) : List String × Bool :=
  displayTokens s.low_coverage_lines 10

/-! ### Helper lemmas about the guarded-append line collections -/

theorem mem_addLineNum (ls : List Nat) (m n : Nat) :
    n ∈ addLineNum ls m ↔ n ∈ ls ∨ n = m := by
  unfold addLineNum
  split
  · rename_i h
    constructor
    · exact fun hn => Or.inl hn
    · rintro (hn | rfl)
      · exact hn
      · exact h
  · simp

theorem mem_foldl_addLineNum (L : List Nat) :
    ∀ (ls : List Nat) (n : Nat),
      n ∈ L.foldl addLineNum ls ↔ n ∈ ls ∨ n ∈ L := by
  induction L with
  | nil => simp
  | cons x xs ih =>
      intro ls n
      simp only [List.foldl_cons, ih, mem_addLineNum, List.mem_cons]
      tauto

theorem mem_lineRange (s e n : Nat) :
    n ∈ lineRange s e ↔ s ≤ n ∧ n ≤ e := by
  unfold lineRange
  rw [List.mem_range']
  constructor
  · rintro ⟨i, hi, rfl⟩
    omega
  · intro h
    exact ⟨n - s, by omega, by omega⟩

theorem mem_addRange (ls : List Nat) (s e n : Nat) :
    n ∈ addRange ls s e ↔ n ∈ ls ∨ (s ≤ n ∧ n ≤ e) := by
  unfold addRange
  rw [mem_foldl_addLineNum, mem_lineRange]

theorem nodup_addLineNum (ls : List Nat) (m : Nat) (h : ls.Nodup) :
    (addLineNum ls m).Nodup := by
  unfold addLineNum
  split
  · exact h
  · rename_i hm
    simp [List.nodup_append, h, hm]

theorem nodup_foldl_addLineNum (L : List Nat) :
    ∀ (ls : List Nat), ls.Nodup → (L.foldl addLineNum ls).Nodup := by
  induction L with
  | nil => exact fun ls h => h
  | cons x xs ih =>
      intro ls h
      exact ih (addLineNum ls x) (nodup_addLineNum ls x h)

theorem nodup_addRange (ls : List Nat) (s e : Nat) (h : ls.Nodup) :
    (addRange ls s e).Nodup :=
  nodup_foldl_addLineNum (lineRange s e) ls h

theorem addRange_of_lt (ls : List Nat) (s e : Nat) (h : e < s) :
    addRange ls s e = ls := by
  unfold addRange lineRange
  have : e + 1 - s = 0 := by omega
  rw [this]
  rfl

/-! ### Field equations of the accumulator step -/

theorem applyRecord_total (s : FileCoverageStats) (r : CoverageRecord) :
    (applyRecord s r).total_statements = s.total_statements + r.statements :=
  rfl

theorem applyRecord_covered (s : FileCoverageStats) (r : CoverageRecord) :
    (applyRecord s r).covered_statements =
      if r.count > 0 then s.covered_statements + r.statements
      else s.covered_statements :=
  rfl

theorem applyRecord_uncovered (s : FileCoverageStats) (r : CoverageRecord) :
    (applyRecord s r).uncovered_lines =
      if r.count > 0 then s.uncovered_lines
      else addRange s.uncovered_lines r.startLine r.endLine :=
  rfl

theorem applyRecord_low (s : FileCoverageStats) (r : CoverageRecord) :
    (applyRecord s r).low_coverage_lines =
      if r.count ≤ 1 ∧ r.count > 0 then
        addRange s.low_coverage_lines r.startLine r.endLine
      else s.low_coverage_lines :=
  rfl

/-- Direct characterisation of a lookup after the defaultdict update. -/
theorem lookupStats_updateStats (m : CoverMap) (g f : List Char)
    (r : CoverageRecord) :
    lookupStats (updateStats m g r) f =
      if g = f then
        some (applyRecord ((lookupStats m f).getD initStats) r)
      else lookupStats m f := by
  induction m with
  | nil =>
      unfold updateStats lookupStats
      by_cases h : g = f <;> simp [h, lookupStats]
  | cons p rest ih =>
      unfold updateStats
      by_cases hpg : p.1 = g
      · rw [if_pos hpg]
        unfold lookupStats
        by_cases hpf : p.1 = f
        · rw [if_pos hpf, if_pos hpf, if_pos (hpg ▸ hpf)]
          simp
        · rw [if_neg hpf, if_neg hpf,
            if_neg (fun hgf : g = f => hpf (hgf ▸ hpg))]
      · rw [if_neg hpg]
        unfold lookupStats
        by_cases hpf : p.1 = f
        · rw [if_pos hpf, if_pos hpf,
            if_neg (fun h : g = f => hpg (hpf.trans h.symm))]
        · rw [if_neg hpf, if_neg hpf, ih]

/-! ### C1: the accumulator transition and the worked two-record example -/

/-- **C1.** Each consumed record adds its statement count to the file's
total unconditionally, adds it to the covered count exactly when the
execution count is positive, puts every line of `[startLine, endLine]`
into the uncovered collection exactly when the execution count is zero,
and into the low-execution collection exactly when the count is in
`(0, 1]`.  On the two records `f.go:1.1,3.1 2 0` and `f.go:4.1,4.1 1 5`
the resulting stats for `f.go` are total 3, covered 1, uncovered lines
`{1,2,3}`, and percentage `100/3` (≈ 33.33%). -/
theorem C1_accumulator_semantics :
    (∀ (s : FileCoverageStats) (r : CoverageRecord),
      (applyRecord s r).total_statements = s.total_statements + r.statements
      ∧ (applyRecord s r).covered_statements =
          s.covered_statements + (if r.count > 0 then r.statements else 0)
      ∧ (∀ n, n ∈ (applyRecord s r).uncovered_lines ↔
          n ∈ s.uncovered_lines ∨
            (r.count = 0 ∧ r.startLine ≤ n ∧ n ≤ r.endLine))
      ∧ (∀ n, n ∈ (applyRecord s r).low_coverage_lines ↔
          n ∈ s.low_coverage_lines ∨
            (0 < r.count ∧ r.count ≤ 1 ∧ r.startLine ≤ n ∧ n ≤ r.endLine)))
    ∧ lookupStats
        (parse_cover_out
          [("f.go:1.1,3.1 2 0").data, ("f.go:4.1,4.1 1 5").data])
        ("f.go").data = some ⟨3, 1, [1, 2, 3], []⟩
    ∧ calculate_coverage ⟨3, 1, [1, 2, 3], []⟩ = 100 / 3 := by
  refine ⟨fun s r => ⟨rfl, ?_, ?_, ?_⟩, by decide, by norm_num [calculate_coverage]⟩
  · unfold applyRecord
    split <;> simp
  · intro n
    unfold applyRecord
    simp only
    split
    · rename_i h
      simp only [show ¬ r.count = 0 by omega]
      tauto
    · rename_i h
      rw [mem_addRange]
      simp only [show r.count = 0 by omega]
      tauto
  · intro n
    unfold applyRecord
    simp only
    split
    · rename_i h
      rw [mem_addRange]
      constructor
      · rintro (hn | hn)
        · exact Or.inl hn
        · exact Or.inr ⟨h.2, h.1, hn⟩
      · rintro (hn | hn)
        · exact Or.inl hn
        · exact Or.inr hn.2.2
    · rename_i h
      constructor
      · exact fun hn => Or.inl hn
      · rintro (hn | hn)
        · exact hn
        · exact absurd ⟨hn.2.1, hn.1⟩ h

/-! ### C2: the coverage calculator -/

/-- **C2.** `calculate_coverage` is a pure function of the statement
counts: it returns exactly 100 when the total is zero, and
`covered / total * 100` otherwise. -/
theorem C2_calculate_coverage (s : FileCoverageStats) :
    (s.total_statements = 0 → calculate_coverage s = 100)
    ∧ (s.total_statements ≠ 0 →
        calculate_coverage s =
          ((s.covered_statements : ℚ) / (s.total_statements : ℚ)) * 100) := by
  constructor
  · intro h
    unfold calculate_coverage
    rw [if_pos h]
  · intro h
    unfold calculate_coverage
    rw [if_neg h]

/-- Witness for C2 at total 0 and at covered 1 / total 3. -/
theorem C2_calculate_coverage_witness :
    calculate_coverage ⟨0, 7, [], []⟩ = 100
    ∧ calculate_coverage ⟨3, 1, [], []⟩ = ((1 : ℚ) / 3) * 100 := by
  constructor
  · exact (C2_calculate_coverage ⟨0, 7, [], []⟩).1 rfl
  · have h := (C2_calculate_coverage ⟨3, 1, [], []⟩).2 (by decide)
    simpa using h

/-! ### C3: covered ≤ total is an invariant of the accumulator -/

theorem applyRecord_le (s : FileCoverageStats) (r : CoverageRecord)
    (h : s.covered_statements ≤ s.total_statements) :
    (applyRecord s r).covered_statements ≤ (applyRecord s r).total_statements := by
  rw [applyRecord_covered, applyRecord_total]
  split <;> omega

theorem updateStats_le (m : CoverMap) (g : List Char) (r : CoverageRecord)
    (h : ∀ f s, lookupStats m f = some s →
      s.covered_statements ≤ s.total_statements) :
    ∀ f s, lookupStats (updateStats m g r) f = some s →
      s.covered_statements ≤ s.total_statements := by
  intro f s hs
  rw [lookupStats_updateStats] at hs
  split at hs
  · cases hs
    apply applyRecord_le
    cases hl : lookupStats m f with
    | none => simp [hl, initStats]
    | some t => simpa [hl] using h f t hl
  · exact h f s hs

theorem consumeRecords_le (rs : List CoverageRecord) :
    ∀ (m : CoverMap),
      (∀ f s, lookupStats m f = some s →
        s.covered_statements ≤ s.total_statements) →
      ∀ f s, lookupStats (consumeRecords m rs) f = some s →
        s.covered_statements ≤ s.total_statements := by
  induction rs with
  | nil => exact fun m h => h
  | cons r rest ih =>
      intro m h
      exact ih (consumeRecord m r) (updateStats_le m r.file r h)

/-- **C3.** After consuming any prefix of a record sequence, every file's
covered statement count is at most its total statement count; and each
record moves the covered count upward by 0 or by its statement count,
never downward. -/
theorem C3_covered_le_total :
    (∀ (recs : List CoverageRecord) (k : Nat) (f : List Char)
        (s : FileCoverageStats),
      lookupStats (consumeRecords [] (recs.take k)) f = some s →
      s.covered_statements ≤ s.total_statements)
    ∧ (∀ (s : FileCoverageStats) (r : CoverageRecord),
        s.covered_statements ≤ (applyRecord s r).covered_statements
        ∧ ((applyRecord s r).covered_statements = s.covered_statements ∨
           (applyRecord s r).covered_statements =
             s.covered_statements + r.statements)) := by
  constructor
  · intro recs k f s hs
    exact consumeRecords_le (recs.take k) []
      (fun f s h => by cases h) f s hs
  · intro s r
    rw [applyRecord_covered]
    constructor
    · split <;> omega
    · split
      · exact Or.inr rfl
      · exact Or.inl rfl

/-- Witness for C3 on the single record `f.go:1.1,3.1 2 0`. -/
theorem C3_covered_le_total_witness :
    (⟨2, 0, [1, 2, 3], []⟩ : FileCoverageStats).covered_statements ≤
      (⟨2, 0, [1, 2, 3], []⟩ : FileCoverageStats).total_statements :=
  C3_covered_le_total.1 [⟨("f.go").data, 1, 1, 3, 1, 2, 0⟩] 1 ("f.go").data
    ⟨2, 0, [1, 2, 3], []⟩ (by decide)

/-! ### C9: a record with startLine > endLine produces an empty range -/

/-- **C9.** A record whose start line exceeds its end line contributes no
line number to either line collection, while its statement count is still
accumulated into the totals as usual. -/
theorem C9_inverted_range (s : FileCoverageStats) (r : CoverageRecord)
    (h : r.endLine < r.startLine) :
    (applyRecord s r).uncovered_lines = s.uncovered_lines
    ∧ (applyRecord s r).low_coverage_lines = s.low_coverage_lines
    ∧ (applyRecord s r).total_statements = s.total_statements + r.statements
    ∧ (applyRecord s r).covered_statements =
        s.covered_statements + (if r.count > 0 then r.statements else 0) := by
  refine ⟨?_, ?_, applyRecord_total s r, ?_⟩
  · rw [applyRecord_uncovered]
    split
    · rfl
    · exact addRange_of_lt s.uncovered_lines r.startLine r.endLine h
  · rw [applyRecord_low]
    split
    · exact addRange_of_lt s.low_coverage_lines r.startLine r.endLine h
    · rfl
  · rw [applyRecord_covered]
    split <;> simp

/-- Witness for C9 at the record `f.go:5.1,3.1 2 0`. -/
theorem C9_inverted_range_witness :
    (applyRecord initStats ⟨("f.go").data, 5, 1, 3, 1, 2, 0⟩).uncovered_lines =
      initStats.uncovered_lines
    ∧ (applyRecord initStats ⟨("f.go").data, 5, 1, 3, 1, 2, 0⟩).low_coverage_lines =
      initStats.low_coverage_lines
    ∧ (applyRecord initStats ⟨("f.go").data, 5, 1, 3, 1, 2, 0⟩).total_statements =
      initStats.total_statements + 2
    ∧ (applyRecord initStats ⟨("f.go").data, 5, 1, 3, 1, 2, 0⟩).covered_statements =
      initStats.covered_statements + (if (0 : Nat) > 0 then 2 else 0) :=
  C9_inverted_range initStats ⟨("f.go").data, 5, 1, 3, 1, 2, 0⟩ (by decide)

/-! ### C7: adding an uncovered line is idempotent -/

/-- **C7.** The guarded append is idempotent, the uncovered collection
stays duplicate-free under every record, and on the two overlapping
zero-count records `f.go:5.1,7.1 1 0` and `f.go:6.1,8.1 1 0` the merged
uncovered collection is exactly `[5, 6, 7, 8]` (no duplicates) and its
compressed rendering is `"5-8"`. -/
theorem C7_uncovered_idempotent :
    (∀ (ls : List Nat) (n : Nat),
      addLineNum (addLineNum ls n) n = addLineNum ls n)
    ∧ (∀ (s : FileCoverageStats) (r : CoverageRecord),
        s.uncovered_lines.Nodup → ((applyRecord s r).uncovered_lines).Nodup)
    ∧ lookupStats
        (parse_cover_out
          [("f.go:5.1,7.1 1 0").data, ("f.go:6.1,8.1 1 0").data])
        ("f.go").data = some ⟨2, 0, [5, 6, 7, 8], []⟩
    ∧ ([5, 6, 7, 8] : List Nat).Nodup
    ∧ renderTokens [5, 6, 7, 8] 20 = "5-8" := by
  refine ⟨?_, ?_, by decide, by decide, by decide⟩
  · intro ls n
    by_cases h : n ∈ ls <;> simp [addLineNum, h]
  · intro s r h
    rw [applyRecord_uncovered]
    split
    · exact h
    · exact nodup_addRange s.uncovered_lines r.startLine r.endLine h

/-- Witness for C7's Nodup-preservation conjunct at a concrete state and
record. -/
theorem C7_uncovered_idempotent_witness :
    ((applyRecord ⟨1, 0, [5, 6, 7], []⟩
        ⟨("f.go").data, 6, 1, 8, 1, 1, 0⟩).uncovered_lines).Nodup :=
  C7_uncovered_idempotent.2.1 ⟨1, 0, [5, 6, 7], []⟩
    ⟨("f.go").data, 6, 1, 8, 1, 1, 0⟩ (by decide)

/-! ### C8: the line loop never fails, it only skips or accumulates -/

/-- **C8.** Processing any input line either leaves the accumulator map
unchanged or consumes exactly one matched record; lines that strip to
empty, the literal `mode: atomic` header, and lines rejected by the
record grammar always leave the map unchanged. -/
theorem C8_skip_behavior (m : CoverMap) (line : List Char) :
    (processLine m line = m ∨
      ∃ r, matchRecord (pyStrip line) = some r ∧
        processLine m line = consumeRecord m r)
    ∧ (pyStrip line = [] → processLine m line = m)
    ∧ (pyStrip line = ("mode: atomic").data → processLine m line = m)
    ∧ (matchRecord (pyStrip line) = none → processLine m line = m) := by
  unfold processLine
  by_cases hb : pyStrip line = [] ∨ pyStrip line = ("mode: atomic").data
  · rw [if_pos hb]
    exact ⟨Or.inl rfl, fun _ => rfl, fun _ => rfl, fun _ => rfl⟩
  · rw [if_neg hb]
    generalize hm : matchRecord (pyStrip line) = o
    cases o with
    | none =>
        exact ⟨Or.inl rfl, fun h => absurd (Or.inl h) hb,
          fun h => absurd (Or.inr h) hb, fun _ => rfl⟩
    | some r =>
        refine ⟨Or.inr ⟨r, rfl, rfl⟩, fun h => absurd (Or.inl h) hb,
          fun h => absurd (Or.inr h) hb, fun h => ?_⟩
        cases h

/-- Witness for C8 on a blank line, the mode header, and a garbage line. -/
theorem C8_skip_behavior_witness :
    processLine [] ("   ").data = []
    ∧ processLine [] ("mode: atomic").data = []
    ∧ processLine [] ("garbage line").data = [] :=
  ⟨(C8_skip_behavior [] ("   ").data).2.1 (by decide),
   (C8_skip_behavior [] ("mode: atomic").data).2.2.1 (by decide),
   (C8_skip_behavior [] ("garbage line").data).2.2.2 (by decide)⟩

/-! ### C6: range compression and display truncation -/

theorem insertNat_perm (n : Nat) (l : List Nat) :
    (insertNat n l).Perm (n :: l) := by
  induction l with
  | nil => exact List.Perm.refl _
  | cons m ms ih =>
      unfold insertNat
      split
      · exact (ih.cons m).trans (List.Perm.swap n m ms)
      · exact List.Perm.refl _

theorem sortNat_perm (l : List Nat) : (sortNat l).Perm l := by
  induction l with
  | nil => exact List.Perm.refl _
  | cons x xs ih =>
      show (insertNat x (sortNat xs)).Perm (x :: xs)
      exact (insertNat_perm x (sortNat xs)).trans (ih.cons x)

theorem insertNat_pairwise (n : Nat) (l : List Nat)
    (h : l.Pairwise (fun a b => a ≤ b)) :
    (insertNat n l).Pairwise (fun a b => a ≤ b) := by
  induction l with
  | nil => simp [insertNat]
  | cons m ms ih =>
      rw [List.pairwise_cons] at h
      unfold insertNat
      split
      · rename_i hlt
        rw [List.pairwise_cons]
        refine ⟨?_, ih h.2⟩
        intro z hz
        have hz2 := (insertNat_perm n ms).mem_iff.mp hz
        rw [List.mem_cons] at hz2
        rcases hz2 with rfl | hz2
        · exact Nat.le_of_lt hlt
        · exact h.1 z hz2
      · rename_i hge
        rw [List.pairwise_cons]
        refine ⟨?_, List.pairwise_cons.mpr h⟩
        intro z hz
        rcases List.mem_cons.mp hz with hz | hz
        · cases hz
          omega
        · exact Nat.le_trans (by omega) (h.1 z hz)

theorem sortNat_pairwise (l : List Nat) :
    (sortNat l).Pairwise (fun a b => a ≤ b) := by
  induction l with
  | nil => simp [sortNat]
  | cons x xs ih => exact insertNat_pairwise x (sortNat xs) ih

theorem compressLoop_run (k : Nat) :
    ∀ (s e : Nat),
      compressLoop s e (List.range' (e + 1) k) = [rangeToken s (e + k)] := by
  induction k with
  | zero => intro s e; rfl
  | succ k ih =>
      intro s e
      show compressLoop s e ((e + 1) :: List.range' (e + 1 + 1) k) = _
      unfold compressLoop
      rw [if_pos rfl]
      have h := ih s (e + 1)
      rw [show e + 1 + k = e + (k + 1) by omega] at h
      exact h

/-- **C6.** The renderer sorts the line set (`sortNat` is a permutation
of its input and ascending), merges every consecutive run into a single
`start` / `start-end` token, and the displayed list is the first 20
(uncovered) resp. 10 (low-execution) tokens with the ellipsis flag set
exactly when tokens were dropped; `{1,2,3,7,9,10}` compresses to
`["1-3", "7", "9-10"]`. -/
theorem C6_range_compression :
    compressRanges (sortNat [1, 2, 3, 7, 9, 10]) = ["1-3", "7", "9-10"]
    ∧ (∀ l : List Nat, (sortNat l).Perm l
        ∧ (sortNat l).Pairwise (fun a b => a ≤ b))
    ∧ (∀ a k : Nat,
        compressRanges (List.range' a (k + 1)) = [rangeToken a (a + k)])
    ∧ (∀ s : FileCoverageStats,
        (uncoveredDisplay s).1 =
          (compressRanges (sortNat s.uncovered_lines)).take 20
        ∧ ((uncoveredDisplay s).2 = true ↔
            (compressRanges (sortNat s.uncovered_lines)).drop 20 ≠ [])
        ∧ (lowCoverageDisplay s).1 =
          (compressRanges (sortNat s.low_coverage_lines)).take 10
        ∧ ((lowCoverageDisplay s).2 = true ↔
            (compressRanges (sortNat s.low_coverage_lines)).drop 10 ≠ [])) := by
  refine ⟨by decide, fun l => ⟨sortNat_perm l, sortNat_pairwise l⟩,
    ?_, fun s => ⟨rfl, ?_, rfl, ?_⟩⟩
  · intro a k
    show compressLoop a a (List.range' (a + 1) k) = _
    exact compressLoop_run k a a
  · show decide (_ > 20) = true ↔ _
    rw [decide_eq_true_iff]
    constructor
    · intro h hd
      rw [List.drop_eq_nil_iff] at hd
      omega
    · intro hd
      by_contra hle
      exact hd (List.drop_eq_nil_iff.mpr (by omega))
  · show decide (_ > 10) = true ↔ _
    rw [decide_eq_true_iff]
    constructor
    · intro h hd
      rw [List.drop_eq_nil_iff] at hd
      omega
    · intro hd
      by_contra hle
      exact hd (List.drop_eq_nil_iff.mpr (by omega))

/-! ### Sorting lemmas for the report -/

theorem insertByCoverage_perm (x : List Char × ℚ × FileCoverageStats)
    (l : List (List Char × ℚ × FileCoverageStats)) :
    (insertByCoverage x l).Perm (x :: l) := by
  induction l with
  | nil => exact List.Perm.refl _
  | cons y ys ih =>
      unfold insertByCoverage
      split
      · exact (ih.cons y).trans (List.Perm.swap x y ys)
      · exact List.Perm.refl _

theorem sortByCoverage_perm (l : List (List Char × ℚ × FileCoverageStats)) :
    (sortByCoverage l).Perm l := by
  induction l with
  | nil => exact List.Perm.refl _
  | cons x xs ih =>
      show (insertByCoverage x (sortByCoverage xs)).Perm (x :: xs)
      exact (insertByCoverage_perm x (sortByCoverage xs)).trans (ih.cons x)

theorem insertByCoverage_pairwise (x : List Char × ℚ × FileCoverageStats)
    (l : List (List Char × ℚ × FileCoverageStats))
    (h : l.Pairwise (fun a b => a.2.1 ≤ b.2.1)) :
    (insertByCoverage x l).Pairwise (fun a b => a.2.1 ≤ b.2.1) := by
  induction l with
  | nil => simp [insertByCoverage]
  | cons y ys ih =>
      rw [List.pairwise_cons] at h
      unfold insertByCoverage
      split
      · rename_i hlt
        rw [List.pairwise_cons]
        refine ⟨?_, ih h.2⟩
        intro z hz
        have hz2 := (insertByCoverage_perm x ys).mem_iff.mp hz
        rw [List.mem_cons] at hz2
        rcases hz2 with rfl | hz2
        · exact le_of_lt hlt
        · exact h.1 z hz2
      · rename_i hge
        rw [List.pairwise_cons]
        refine ⟨?_, List.pairwise_cons.mpr h⟩
        intro z hz
        rw [List.mem_cons] at hz
        rcases hz with rfl | hz
        · exact le_of_not_lt hge
        · exact le_trans (le_of_not_lt hge) (h.1 z hz)

theorem sortByCoverage_pairwise
    (l : List (List Char × ℚ × FileCoverageStats)) :
    (sortByCoverage l).Pairwise (fun a b => a.2.1 ≤ b.2.1) := by
  induction l with
  | nil => simp [sortByCoverage]
  | cons x xs ih => exact insertByCoverage_pairwise x (sortByCoverage xs) ih

theorem insertByCoverage_filter_eq (x : List Char × ℚ × FileCoverageStats)
    (l : List (List Char × ℚ × FileCoverageStats)) (c : ℚ) :
    (insertByCoverage x l).filter (fun t => decide (t.2.1 = c)) =
      if x.2.1 = c then
        x :: l.filter (fun t => decide (t.2.1 = c))
      else l.filter (fun t => decide (t.2.1 = c)) := by
  induction l with
  | nil =>
      unfold insertByCoverage
      by_cases hx : x.2.1 = c <;> simp [List.filter, hx]
  | cons y ys ih =>
      unfold insertByCoverage
      split
      · rename_i hlt
        by_cases hx : x.2.1 = c
        · have hy : ¬(y.2.1 = c) := by
            intro hy
            rw [hx] at hlt
            rw [hy] at hlt
            exact lt_irrefl c hlt
          simp [List.filter_cons, hx, hy, ih]
        · by_cases hy : y.2.1 = c <;> simp [List.filter_cons, hx, hy, ih]
      · by_cases hx : x.2.1 = c <;> simp [List.filter_cons, hx]

theorem sortByCoverage_filter_eq
    (l : List (List Char × ℚ × FileCoverageStats)) (c : ℚ) :
    (sortByCoverage l).filter (fun t => decide (t.2.1 = c)) =
      l.filter (fun t => decide (t.2.1 = c)) := by
  induction l with
  | nil => rfl
  | cons x xs ih =>
      show (insertByCoverage x (sortByCoverage xs)).filter _ = _
      rw [insertByCoverage_filter_eq]
      by_cases hx : x.2.1 = c <;> simp [List.filter_cons, hx, ih]

/-! ### C4: membership of the low-coverage section, totals over all files -/

/-- **C4.** An entry is listed in the low-coverage section exactly when
it is one of the per-file entries and its percentage lies strictly
between 0 and 95; the grand-total statement sums nevertheless range over
every file of the map, excluded ones included, and the overall
percentage is the calculator applied to those sums. -/
theorem C4_low_coverage_section (m : CoverMap) :
    (∀ t, t ∈ low_coverage_files m ↔
      t ∈ filesByCoverage m ∧ 0 < t.2.1 ∧ t.2.1 < 95)
    ∧ (totalStats m).total_statements =
        (m.map (fun p => p.2.total_statements)).sum
    ∧ (totalStats m).covered_statements =
        (m.map (fun p => p.2.covered_statements)).sum
    ∧ overall_coverage m =
        calculate_coverage
          ⟨(m.map (fun p => p.2.total_statements)).sum,
           (m.map (fun p => p.2.covered_statements)).sum, [], []⟩ := by
  have htot : (totalStats m).total_statements =
      (m.map (fun p => p.2.total_statements)).sum := by
    show ((sortByCoverage (filesByCoverage m)).map
      (fun t => t.2.2.total_statements)).sum = _
    rw [((sortByCoverage_perm (filesByCoverage m)).map
      (fun t => t.2.2.total_statements)).sum_eq]
    unfold filesByCoverage
    rw [List.map_map]
    rfl
  have hcov : (totalStats m).covered_statements =
      (m.map (fun p => p.2.covered_statements)).sum := by
    show ((sortByCoverage (filesByCoverage m)).map
      (fun t => t.2.2.covered_statements)).sum = _
    rw [((sortByCoverage_perm (filesByCoverage m)).map
      (fun t => t.2.2.covered_statements)).sum_eq]
    unfold filesByCoverage
    rw [List.map_map]
    rfl
  refine ⟨?_, htot, hcov, ?_⟩
  · intro t
    unfold low_coverage_files
    rw [List.mem_filter,
      (sortByCoverage_perm (filesByCoverage m)).mem_iff]
    simp only [Bool.and_eq_true, decide_eq_true_iff]
    tauto
  · show calculate_coverage (totalStats m) = _
    unfold calculate_coverage
    rw [htot, hcov]

/-! ### C5: ascending stable sort of the report -/

/-- **C5.** The report's file list is sorted ascending by coverage
percentage, ties keep the original encounter order (for every percentage
value, filtering the sorted list to that value gives exactly the
original-order sublist), and for three files encountered as A = 50%,
B = 20%, C = 90% the low-coverage section lists them B, A, C. -/
theorem C5_stable_sort_order :
    (∀ l : List (List Char × ℚ × FileCoverageStats),
      (sortByCoverage l).Pairwise (fun a b => a.2.1 ≤ b.2.1))
    ∧ (∀ (l : List (List Char × ℚ × FileCoverageStats)) (c : ℚ),
      (sortByCoverage l).filter (fun t => decide (t.2.1 = c)) =
        l.filter (fun t => decide (t.2.1 = c)))
    ∧ (low_coverage_files (parse_cover_out
        [("a.go:1.1,1.1 1 2").data, ("a.go:2.1,2.1 1 0").data,
         ("b.go:1.1,1.1 1 2").data, ("b.go:2.1,5.1 4 0").data,
         ("c.go:1.1,1.1 9 2").data, ("c.go:2.1,2.1 1 0").data])).map
        (fun t => t.1) =
      [("b.go").data, ("a.go").data, ("c.go").data] := by
  refine ⟨sortByCoverage_pairwise, sortByCoverage_filter_eq, ?_⟩
  have hM : parse_cover_out
      [("a.go:1.1,1.1 1 2").data, ("a.go:2.1,2.1 1 0").data,
       ("b.go:1.1,1.1 1 2").data, ("b.go:2.1,5.1 4 0").data,
       ("c.go:1.1,1.1 9 2").data, ("c.go:2.1,2.1 1 0").data] =
      [(("a.go").data, ⟨2, 1, [2], []⟩),
       (("b.go").data, ⟨5, 1, [2, 3, 4, 5], []⟩),
       (("c.go").data, ⟨10, 9, [2], []⟩)] := by decide
  rw [hM]
  have ha : calculate_coverage ⟨2, 1, [2], []⟩ = 50 := by
    norm_num [calculate_coverage]
  have hb : calculate_coverage ⟨5, 1, [2, 3, 4, 5], []⟩ = 20 := by
    norm_num [calculate_coverage]
  have hc : calculate_coverage ⟨10, 9, [2], []⟩ = 90 := by
    norm_num [calculate_coverage]
  unfold low_coverage_files filesByCoverage
  simp only [List.map]
  rw [ha, hb, hc]
  decide

/-! ### C10: the regex is anchored at the start only -/

theorem spanP_append_of_ne (p : Char → Bool) (u t : List Char)
    (h : (spanP p u).2 ≠ []) :
    spanP p (u ++ t) = ((spanP p u).1, (spanP p u).2 ++ t) := by
  unfold spanP at h ⊢
  have hlen := congrArg List.length (List.takeWhile_append_dropWhile p u)
  rw [List.length_append] at hlen
  have hne : ¬(u.takeWhile p).length = u.length := by
    have : 0 < (u.dropWhile p).length := List.length_pos.mpr h
    omega
  rw [List.takeWhile_append, if_neg hne, List.dropWhile_append,
    if_neg (by simpa [List.isEmpty_iff] using h)]

theorem spanP_append_of_nil (p : Char → Bool) (u t : List Char)
    (h : (spanP p u).2 = []) :
    spanP p (u ++ t) = (u ++ t.takeWhile p, t.dropWhile p) := by
  simp only [spanP] at h ⊢
  have htake : u.takeWhile p = u := by
    have h2 := List.takeWhile_append_dropWhile p u
    rw [h, List.append_nil] at h2
    exact h2
  rw [List.takeWhile_append, if_pos (by rw [htake]), List.dropWhile_append,
    if_pos (by simp [h])]

theorem expectChar_eq (c : Char) (u v : List Char)
    (h : expectChar c u = some v) : u = c :: v := by
  cases u with
  | nil => cases h
  | cons x xs =>
      by_cases hx : x = c
      · simp only [expectChar, if_pos hx] at h
        cases h
        rw [hx]
      · simp only [expectChar, if_neg hx] at h
        cases h

theorem expectChar_append (c : Char) (u v t : List Char)
    (h : expectChar c u = some v) :
    expectChar c (u ++ t) = some (v ++ t) := by
  rw [expectChar_eq c u v h]
  show expectChar c (c :: (v ++ t)) = some (v ++ t)
  simp [expectChar]

theorem parseNat1_inv (u : List Char) (n : Nat) (v : List Char)
    (h : parseNat1 u = some (n, v)) :
    u.takeWhile isDigitChar ≠ [] ∧ n = digitsToNat (u.takeWhile isDigitChar)
    ∧ v = u.dropWhile isDigitChar := by
  unfold parseNat1 spanP at h
  split at h
  · cases h
  · rename_i hne
    cases h
    exact ⟨by simpa [spanP] using hne, rfl, rfl⟩

theorem parseNat1_append (u t : List Char) (n : Nat) (v : List Char)
    (h : parseNat1 u = some (n, v)) (hv : v ≠ []) :
    parseNat1 (u ++ t) = some (n, v ++ t) := by
  obtain ⟨hne, hn, hveq⟩ := parseNat1_inv u n v h
  have hs := spanP_append_of_ne isDigitChar u t
    (by simpa [spanP, ← hveq] using hv)
  unfold parseNat1
  rw [hs]
  simp only [spanP]
  rw [if_neg hne, hn, hveq]

/-- Appending to a fully-consumed digit run: the run absorbs any leading
digits of the appended text (this is the greedy final `(\d+)` group). -/
theorem parseNat1_append_nil (u t : List Char) (n : Nat)
    (h : parseNat1 u = some (n, [])) :
    parseNat1 (u ++ t) =
      some (digitsToNat (u ++ t.takeWhile isDigitChar),
        t.dropWhile isDigitChar)
    ∧ (t.takeWhile isDigitChar = [] →
        parseNat1 (u ++ t) = some (n, t)) := by
  obtain ⟨hne, hn, hveq⟩ := parseNat1_inv u n [] h
  have hu : u.takeWhile isDigitChar = u := by
    have := List.takeWhile_append_dropWhile isDigitChar u
    rw [← hveq, List.append_nil] at this
    exact this
  have hs := spanP_append_of_nil isDigitChar u t (by simp [spanP, ← hveq])
  have hmain : parseNat1 (u ++ t) =
      some (digitsToNat (u ++ t.takeWhile isDigitChar),
        t.dropWhile isDigitChar) := by
    unfold parseNat1
    rw [hs]
    simp only [spanP]
    rw [if_neg (by simp [show u ≠ [] from fun hu0 => hne (by simp [hu0])])]
  refine ⟨hmain, fun ht => ?_⟩
  rw [hmain, ht, List.append_nil, ← hu, ← hn]
  have hdrop : t.dropWhile isDigitChar = t := by
    have := List.takeWhile_append_dropWhile isDigitChar t
    rw [ht] at this
    simpa using this
  rw [hdrop]

theorem skipSpaces1_append (u t v : List Char)
    (h : skipSpaces1 u = some v) (hv : v ≠ []) :
    skipSpaces1 (u ++ t) = some (v ++ t) := by
  unfold skipSpaces1 spanP at h
  split at h
  · cases h
  · rename_i hne
    cases h
    have hs := spanP_append_of_ne isSpaceChar u t (by simpa [spanP] using hv)
    unfold skipSpaces1
    rw [hs]
    simp only [spanP] at hne ⊢
    rw [if_neg hne]

theorem spanFile_append (u t f v : List Char)
    (h : spanFile u = some (f, v)) :
    spanFile (u ++ t) = some (f, v ++ t) := by
  unfold spanFile at h
  split at h
  · cases h
  · rename_i hne
    cases hc : expectChar ':' (spanP (fun c => !(c = ':')) u).2 with
    | none => rw [hc] at h; cases h
    | some w =>
        rw [hc] at h
        simp only [Option.map_some'] at h
        cases h
        have hne2 : (spanP (fun c => !(c = ':')) u).2 ≠ [] := by
          intro h0
          rw [h0] at hc
          cases hc
        have hs := spanP_append_of_ne (fun c => !(c = ':')) u t hne2
        unfold spanFile
        rw [hs]
        simp only [spanP] at hne hc ⊢
        rw [if_neg hne, expectChar_append ':' _ _ t hc]
        simp

set_option maxHeartbeats 2000000 in
/-- Appending text to a line matched by the record regex: the parse of
the extended line succeeds with the same groups, except that when the
original parse had consumed the whole line, leading digits of the
appended text are absorbed into the final greedy count group. -/
theorem matchRecordAux_append (cs t : List Char) (r : CoverageRecord)
    (rest : List Char) (h : matchRecordAux cs = some (r, rest)) :
    ∃ cnt rest2,
      matchRecordAux (cs ++ t) = some ({ r with count := cnt }, rest2)
      ∧ ((rest = [] → t.takeWhile isDigitChar = []) →
          cnt = r.count ∧ rest2 = rest ++ t) := by
  unfold matchRecordAux at h
  cases hs0 : spanFile cs with
  | none => rw [hs0] at h; simp at h
  | some p1 =>
  obtain ⟨f1, v1⟩ := p1
  rw [hs0] at h
  simp only [Option.some_bind] at h
  cases hs1 : parseNat1 v1 with
  | none => rw [hs1] at h; simp at h
  | some q1 =>
  obtain ⟨n1, w1⟩ := q1
  rw [hs1] at h
  simp only [Option.some_bind] at h
  cases hs2 : expectChar '.' w1 with
  | none => rw [hs2] at h; simp at h
  | some r2 =>
  rw [hs2] at h
  simp only [Option.some_bind] at h
  cases hs3 : parseNat1 r2 with
  | none => rw [hs3] at h; simp at h
  | some q2 =>
  obtain ⟨n2, w2⟩ := q2
  rw [hs3] at h
  simp only [Option.some_bind] at h
  cases hs4 : expectChar ',' w2 with
  | none => rw [hs4] at h; simp at h
  | some r3 =>
  rw [hs4] at h
  simp only [Option.some_bind] at h
  cases hs5 : parseNat1 r3 with
  | none => rw [hs5] at h; simp at h
  | some q3 =>
  obtain ⟨n3, w3⟩ := q3
  rw [hs5] at h
  simp only [Option.some_bind] at h
  cases hs6 : expectChar '.' w3 with
  | none => rw [hs6] at h; simp at h
  | some r4 =>
  rw [hs6] at h
  simp only [Option.some_bind] at h
  cases hs7 : parseNat1 r4 with
  | none => rw [hs7] at h; simp at h
  | some q4 =>
  obtain ⟨n4, w4⟩ := q4
  rw [hs7] at h
  simp only [Option.some_bind] at h
  cases hs8 : skipSpaces1 w4 with
  | none => rw [hs8] at h; simp at h
  | some r5 =>
  rw [hs8] at h
  simp only [Option.some_bind] at h
  cases hs9 : parseNat1 r5 with
  | none => rw [hs9] at h; simp at h
  | some q5 =>
  obtain ⟨n5, w5⟩ := q5
  rw [hs9] at h
  simp only [Option.some_bind] at h
  cases hs10 : skipSpaces1 w5 with
  | none => rw [hs10] at h; simp at h
  | some r6 =>
  rw [hs10] at h
  simp only [Option.some_bind] at h
  cases hs11 : parseNat1 r6 with
  | none => rw [hs11] at h; simp at h
  | some q6 =>
  obtain ⟨n6, w6⟩ := q6
  rw [hs11] at h
  simp only [Option.some_bind] at h
  injection h with h1
  injection h1 with hA hB
  subst hA
  subst hB
  have hne1 : w1 ≠ [] := by
    intro h0
    rw [h0] at hs2
    simp [expectChar] at hs2
  have hne2 : w2 ≠ [] := by
    intro h0
    rw [h0] at hs4
    simp [expectChar] at hs4
  have hne3 : w3 ≠ [] := by
    intro h0
    rw [h0] at hs6
    simp [expectChar] at hs6
  have hne4 : w4 ≠ [] := by
    intro h0
    rw [h0] at hs8
    simp [skipSpaces1, spanP] at hs8
  have hne5 : r5 ≠ [] := by
    intro h0
    rw [h0] at hs9
    simp [parseNat1, spanP] at hs9
  have hne6 : w5 ≠ [] := by
    intro h0
    rw [h0] at hs10
    simp [skipSpaces1, spanP] at hs10
  have hne7 : r6 ≠ [] := by
    intro h0
    rw [h0] at hs11
    simp [parseNat1, spanP] at hs11
  have H0 := spanFile_append cs t f1 v1 hs0
  have H1 := parseNat1_append v1 t n1 w1 hs1 hne1
  have H2 := expectChar_append '.' w1 r2 t hs2
  have H3 := parseNat1_append r2 t n2 w2 hs3 hne2
  have H4 := expectChar_append ',' w2 r3 t hs4
  have H5 := parseNat1_append r3 t n3 w3 hs5 hne3
  have H6 := expectChar_append '.' w3 r4 t hs6
  have H7 := parseNat1_append r4 t n4 w4 hs7 hne4
  have H8 := skipSpaces1_append w4 t r5 hs8 hne5
  have H9 := parseNat1_append r5 t n5 w5 hs9 hne6
  have H10 := skipSpaces1_append w5 t r6 hs10 hne7
  have Hpre : matchRecordAux (cs ++ t) =
      (parseNat1 (r6 ++ t)).bind (fun q6 =>
        some (⟨f1, n1, n2, n3, n4, n5, q6.1⟩, q6.2)) := by
    unfold matchRecordAux
    rw [H0]
    simp only [Option.some_bind]
    rw [H1]
    simp only [Option.some_bind]
    rw [H2]
    simp only [Option.some_bind]
    rw [H3]
    simp only [Option.some_bind]
    rw [H4]
    simp only [Option.some_bind]
    rw [H5]
    simp only [Option.some_bind]
    rw [H6]
    simp only [Option.some_bind]
    rw [H7]
    simp only [Option.some_bind]
    rw [H8]
    simp only [Option.some_bind]
    rw [H9]
    simp only [Option.some_bind]
    rw [H10]
    simp only [Option.some_bind]
  by_cases hw6 : w6 = []
  · subst hw6
    obtain ⟨Hmain, Hcond⟩ := parseNat1_append_nil r6 t n6 hs11
    refine ⟨digitsToNat (r6 ++ t.takeWhile isDigitChar),
      t.dropWhile isDigitChar, ?_, ?_⟩
    · rw [Hpre, Hmain]
      simp only [Option.some_bind]
    · intro himp
      have ht := himp rfl
      have hdrop : t.dropWhile isDigitChar = t := by
        have h2 := List.takeWhile_append_dropWhile isDigitChar t
        rw [ht] at h2
        simpa using h2
      obtain ⟨hne0, hn0, hv0⟩ := parseNat1_inv r6 n6 [] hs11
      have hr6 : r6.takeWhile isDigitChar = r6 := by
        have h2 := List.takeWhile_append_dropWhile isDigitChar r6
        rw [← hv0, List.append_nil] at h2
        exact h2
      constructor
      · rw [ht, List.append_nil, hn0, hr6]
      · rw [hdrop]
        simp
  · have H11 := parseNat1_append r6 t n6 w6 hs11 hw6
    refine ⟨n6, w6 ++ t, ?_, fun _ => ⟨rfl, rfl⟩⟩
    rw [Hpre, H11]
    simp only [Option.some_bind]

theorem matchRecord_some_aux (cs : List Char) (r : CoverageRecord)
    (h : matchRecord cs = some r) :
    ∃ rest, matchRecordAux cs = some (r, rest) := by
  unfold matchRecord at h
  cases haux : matchRecordAux cs with
  | none => rw [haux] at h; cases h
  | some p =>
      obtain ⟨r0, rest⟩ := p
      rw [haux] at h
      simp only [Option.map_some'] at h
      cases h
      exact ⟨rest, rfl⟩

theorem record_update_count_self (r : CoverageRecord) :
    { r with count := r.count } = r := by
  cases r
  rfl

/-- **C10.** The record grammar is matched anchored at the start of the
line only: a line that begins with a matching record and continues with
arbitrary trailing characters is still accepted.  When the trailing text
does not start with a digit the parsed record is exactly the one of the
leading match (e.g. `f.go:1.1,2.1 3 4 garbage`); a digit-leading suffix
is still accepted but is absorbed into the final greedy count group,
leaving all other groups unchanged. -/
theorem C10_trailing_garbage :
    matchRecord ("f.go:1.1,2.1 3 4 garbage").data =
      some ⟨("f.go").data, 1, 1, 2, 1, 3, 4⟩
    ∧ (∀ (cs t : List Char) (r : CoverageRecord),
        matchRecord cs = some r → t.takeWhile isDigitChar = [] →
        matchRecord (cs ++ t) = some r)
    ∧ (∀ (cs t : List Char) (r : CoverageRecord),
        matchRecord cs = some r →
        ∃ r2, matchRecord (cs ++ t) = some r2
          ∧ r2.file = r.file ∧ r2.startLine = r.startLine
          ∧ r2.startCol = r.startCol ∧ r2.endLine = r.endLine
          ∧ r2.endCol = r.endCol ∧ r2.statements = r.statements) := by
  refine ⟨by decide, ?_, ?_⟩
  · intro cs t r hm ht
    obtain ⟨rest, haux⟩ := matchRecord_some_aux cs r hm
    obtain ⟨cnt, rest2, H, Hc⟩ := matchRecordAux_append cs t r rest haux
    obtain ⟨hcnt, -⟩ := Hc (fun _ => ht)
    unfold matchRecord
    rw [H]
    simp only [Option.map_some']
    rw [hcnt, record_update_count_self]
  · intro cs t r hm
    obtain ⟨rest, haux⟩ := matchRecord_some_aux cs r hm
    obtain ⟨cnt, rest2, H, -⟩ := matchRecordAux_append cs t r rest haux
    refine ⟨{ r with count := cnt }, ?_, rfl, rfl, rfl, rfl, rfl, rfl⟩
    unfold matchRecord
    rw [H]
    simp only [Option.map_some']

/-- Witness for C10: appending ` garbage` to a fully matched line leaves
the parsed record unchanged. -/
theorem C10_trailing_garbage_witness :
    matchRecord (("f.go:1.1,2.1 3 4").data ++ (" garbage").data) =
      some ⟨("f.go").data, 1, 1, 2, 1, 3, 4⟩ :=
  C10_trailing_garbage.2.1 ("f.go:1.1,2.1 3 4").data (" garbage").data
    ⟨("f.go").data, 1, 1, 2, 1, 3, 4⟩ (by decide) (by decide)

end AnalyzeCoverage
